import Mathlib

/-!
Verification of the linkage typing-practice engine.

The repository's `src/` tree contains `main.rs`, `screen.rs` and
`screen/training.rs`.  The engine proper (`crate::data`: the `Session`
state machine, `TriplePoint` metric, proficiency tracker and frequency
table `Freq`) is referenced by these files but its module sources are not
present, so those components are modelled from the specification's words;
`training.rs`'s `State::handle_keyboard` and `main.rs`'s startup fallback
are translated from the source.  Real (`f64`) arithmetic of the metric and
ratios is modelled with exact rationals `ℚ`.
-/

namespace Linkage

/-- A committed keystroke outcome: `{ target: character, dirty: boolean }`;
`dirty` is true iff at least one mistake preceded the correct keystroke. -/
structure Hit where
  target : Char
  dirty : Bool
deriving DecidableEq, Repr

/-- Source accessor `hit.is_dirty()` used by the training view. -/
def Hit.is_dirty (h : Hit) : Bool := h.dirty

/-- Characters the state machine reacts to: alphanumeric or space.  Rust's
Unicode `char::is_alphanumeric` is modelled by `Char.isAlphanum`. -/
def isInputChar (c : Char) : Bool := c.isAlphanum || c == ' '

/-- A word: sequence of characters (the corpus invariant makes it a
non-empty alphanumeric sequence). -/
abbrev Word := List Char

/-- The full hit/dirty record of a finished line, handed to the
proficiency tracker for scoring. -/
structure CompletedLine where
  hits : List Hit
deriving DecidableEq, Repr

/-- Modelled from the spec: the per-keystroke `Session` state of
`crate::data` (not under `src/`): committed hits of the current line, the
bounded error buffer of pending mistakes, the target queue whose head is
the active target, the lookahead buffer of upcoming lines, and the queue
of words awaiting line assembly. -/
structure Session where
  hits : List Hit
  errors : List Char
  targets : List Char
  next_lines : List (List Char)
  word_queue : List Word
deriving DecidableEq, Repr

/-- Modelled from the spec: `Session::apply_char` of `crate::data` (not
under `src/`).  A character that is neither alphanumeric nor a space is
ignored entirely.  A match with the active target commits a Hit whose
dirty flag records whether the error buffer was non-empty, clears the
error buffer and advances the target queue, returning the completed line
exactly when the queue empties.  A mismatch is appended to the error
buffer unless the buffer already holds `maxErrors - 1` entries, in which
case it is silently dropped. -/
def Session.apply_char (maxErrors : Nat) (s : Session) (c : Char) :
    Session × Option CompletedLine :=
  if isInputChar c = false then (s, none)
  else
    match s.targets with
    | [] => (s, none)
    | t :: rest =>
      if c = t then
        let s' : Session :=
          { s with hits := s.hits ++ [⟨t, !s.errors.isEmpty⟩],
                   errors := [], targets := rest }
        if rest.isEmpty then (s', some ⟨s'.hits⟩) else (s', none)
      else
        if s.errors.length < maxErrors - 1 then
          ({ s with errors := s.errors ++ [c] }, none)
        else (s, none)

/-- Modelled from the spec: `Session::backspace` of `crate::data` (not
under `src/`): pops the most recent entry from the error buffer if
non-empty; no-op if the buffer is already empty.  Committed hits and the
target queue are untouched. -/
def Session.backspace (s : Session) : Session :=
  { s with errors := s.errors.dropLast }

/-- Modelled from the spec: `TextFeed::update_words` reached through
`Session::update_words` (not under `src/`): injects an externally
supplied batch of words into the assembly queue ahead of freshly sampled
words. -/
def Session.update_words (s : Session) (ws : List Word) : Session :=
  { s with word_queue := ws ++ s.word_queue }

/-- Modelled from the spec: greedy line assembly of `TextFeed` (not under
`src/`): words are packed left-to-right, space-joined, while the running
length stays within the column budget; a word that would overflow the
current line starts the next line instead. -/
def packLines (budget : Nat) : List Word → List Char → List (List Char)
  | [], cur => if cur.isEmpty then [] else [cur]
  | w :: ws, cur =>
    if cur.isEmpty then packLines budget ws w
    else if cur.length + 1 + w.length ≤ budget then
      packLines budget ws (cur ++ [' '] ++ w)
    else cur :: packLines budget ws w

/-- Modelled from the spec: the reload of a completed Session from the
next buffered line of the lookahead buffer (not under `src/`). -/
def Session.reload (s : Session) : Session :=
  match s.targets, s.next_lines with
  | [], l :: ls => { s with hits := [], errors := [], targets := l, next_lines := ls }
  | _, _ => s

/-- Modelled from the spec: `Session::fill_next_lines` (not under
`src/`): reloads the active line when the target queue has emptied and
tops the lookahead buffer up to the configured minimum depth with lines
assembled from the word queue. -/
def Session.fill_next_lines (budget minDepth : Nat) (s : Session) : Session :=
  let s' := s.reload
  let fresh := packLines budget s'.word_queue []
  { s' with next_lines := s'.next_lines ++ fresh.take (minDepth - s'.next_lines.length),
            word_queue := [] }

/-- Per-character proficiency statistic `{clean_count, dirty_count}`. -/
structure LetterStat where
  clean_count : Nat
  dirty_count : Nat
deriving DecidableEq, Repr

/-- Modelled from the spec: the cleanliness ratio of a letter statistic,
`clean_count / (clean_count + dirty_count)`, defaulting to the neutral
value 1 when both counts are zero (`crate::data`, not under `src/`). -/
def LetterStat.ratio (st : LetterStat) : ℚ :=
  if st.clean_count + st.dirty_count = 0 then 1
  else (st.clean_count : ℚ) / ((st.clean_count : ℚ) + (st.dirty_count : ℚ))

/-- Modelled from the spec: the `ProficiencyTracker` (not under `src/`),
an association of characters to letter statistics kept in ascending
character-code order for a stable `clean_letters` display. -/
structure Tracker where
  stats : List (Char × LetterStat)
deriving DecidableEq, Repr

/-- Insert one hit outcome into the sorted statistic list, bumping the
clean or dirty count of the hit's target. -/
def recordStats : List (Char × LetterStat) → Hit → List (Char × LetterStat)
  | [], h => [(h.target, if h.dirty then ⟨0, 1⟩ else ⟨1, 0⟩)]
  | (c, st) :: rest, h =>
    if h.target = c then
      (c, if h.dirty then { st with dirty_count := st.dirty_count + 1 }
          else { st with clean_count := st.clean_count + 1 }) :: rest
    else if h.target < c then
      (h.target, if h.dirty then ⟨0, 1⟩ else ⟨1, 0⟩) :: (c, st) :: rest
    else (c, st) :: recordStats rest h

/-- Modelled from the spec: record one committed Hit in the tracker. -/
def Tracker.record (t : Tracker) (h : Hit) : Tracker :=
  ⟨recordStats t.stats h⟩

/-- Modelled from the spec: `clean_letters()` (not under `src/`) — the
ordered sequence of (character, cleanliness ratio) pairs. -/
def Tracker.clean_letters (t : Tracker) : List (Char × ℚ) :=
  t.stats.map (fun p => (p.1, p.2.ratio))

/-- Modelled from the spec: characters whose cleanliness ratio is not yet
perfect, used to bias requested practice words. -/
def Tracker.weak_letters (t : Tracker) : List Char :=
  (t.stats.filter (fun p => p.2.ratio < 1)).map (fun p => p.1)

/-- Modelled from the spec: a user profile of `crate::data::profile` (not
under `src/`): name, layout identifier, per-character statistics (field
`state`, as the view's `profiles.active().state.clean_letters()` shows)
and the profile's Session. -/
structure Profile where
  name : List Char
  layout : List Char
  state : Tracker
  session : Session
deriving DecidableEq, Repr

/-- Modelled from the spec: `Profile::add_line` (not under `src/`): score
every Hit of the completed line into the statistics, then, if the
buffered next-line inventory has fallen below the refill threshold,
return a request for more words weighted toward weak letters; otherwise
return nothing. -/
def Profile.add_line (threshold : Nat) (p : Profile) (line : CompletedLine) :
    Profile × Option (List Word) :=
  let p' : Profile := { p with state := line.hits.foldl Tracker.record p.state }
  if p'.session.next_lines.length < threshold then
    (p', some (p'.state.weak_letters.map (fun c => [c])))
  else (p', none)

/-- Modelled from the spec: `crate::data::profile::List` (not under
`src/`): a non-empty collection of profiles with a distinguished active
profile. -/
structure ProfileList where
  active : Profile
  rest : List Profile
deriving DecidableEq, Repr

/-- Source accessor `profiles.session()`: the active profile's Session. -/
def ProfileList.session (ps : ProfileList) : Session := ps.active.session

/-- The effect of `profiles.session_mut()` mutations: replace the active
profile's Session. -/
def ProfileList.set_session (ps : ProfileList) (s : Session) : ProfileList :=
  { ps with active := { ps.active with session := s } }

/-- The error raised by `TriplePoint::new` on bad breakpoints. -/
inductive TriplePointError
  | InvalidRange
deriving DecidableEq, Repr

/-- Modelled from the spec: the three-breakpoint piecewise-linear metric
of `crate::data::training` (not under `src/`); real breakpoints are
modelled by rationals. -/
structure TriplePoint where
  lo : ℚ
  mid : ℚ
  hi : ℚ
deriving DecidableEq, Repr

/-- Modelled from the spec: `TriplePoint::new(lo, mid, hi)` (not under
`src/`): fails with `InvalidRange` unless `0 ≤ lo ≤ mid ≤ hi ≤ 1`. -/
def TriplePoint.new (lo mid hi : ℚ) : Except TriplePointError TriplePoint :=
  if 0 ≤ lo ∧ lo ≤ mid ∧ mid ≤ hi ∧ hi ≤ 1 then Except.ok ⟨lo, mid, hi⟩
  else Except.error TriplePointError.InvalidRange

/-- Modelled from the spec: `TriplePoint::default()` (not under `src/`),
an evenly spaced built-in triple. -/
def TriplePoint.default : TriplePoint := ⟨1/4, 1/2, 3/4⟩

/-- Modelled from the spec: `TriplePoint::value(x)` (not under `src/`):
`x ≤ lo → 0`; `lo < x ≤ mid` → linear interpolation onto `[0, 1/2]`;
`mid < x ≤ hi` → linear interpolation onto `[1/2, 1]`; `x > hi → 1`. -/
def TriplePoint.value (t : TriplePoint) (x : ℚ) : ℚ :=
  if x ≤ t.lo then 0
  else if x ≤ t.mid then (x - t.lo) / (t.mid - t.lo) / 2
  else if x ≤ t.hi then 1/2 + (x - t.mid) / (t.hi - t.mid) / 2
  else 1

/-- The valid-breakpoints invariant of a TriplePoint. -/
def TriplePoint.valid (t : TriplePoint) : Prop :=
  0 ≤ t.lo ∧ t.lo ≤ t.mid ∧ t.mid ≤ t.hi ∧ t.hi ≤ 1

instance (t : TriplePoint) : Decidable t.valid := by
  unfold TriplePoint.valid
  infer_instance

/-- The `unwrap_or_default()` applied by `State::new` in
`src/screen/training.rs` to the result of `TriplePoint::new`. -/
def unwrapOrDefaultTriple (r : Except TriplePointError TriplePoint) : TriplePoint :=
  match r with
  | Except.ok t => t
  | Except.error _ => TriplePoint.default

/-- The error raised when the frequency corpus source is unreadable. -/
inductive IOErr
  | IOError
deriving DecidableEq, Repr

/-- Modelled from the spec: the frequency-weighted vocabulary `Freq` of
`crate::data` (not under `src/`): word → non-negative weight entries. -/
structure Freq where
  table : List (Word × Nat)
deriving DecidableEq, Repr

/-- Modelled from the spec: `Freq::default()` (not under `src/`) — empty
weighted table, built-in fallback vocabulary active. -/
def Freq.default : Freq := ⟨[]⟩

/-- Modelled from the spec: the small built-in fallback vocabulary the
sampler draws from when the weighted table is empty (not under `src/`). -/
def fallbackVocab : List Word :=
  [['t', 'h', 'e'], ['a', 'n', 'd'], ['f', 'o', 'r'], ['y', 'o', 'u']]

/-- Modelled from the spec: one whitespace-delimited corpus record
`(word, weight)`; a line that does not parse into exactly this shape —
a non-empty alphanumeric word followed by a numeric weight — is
rejected. -/
def parseLine (l : List Char) : Option (Word × Nat) :=
  match (l.splitOn ' ').filter (fun w => ¬ w.isEmpty) with
  | [w, n] =>
    if w.all Char.isAlphanum ∧ n.all Char.isDigit ∧ ¬ w.isEmpty ∧ ¬ n.isEmpty then
      some (w, (String.mk n).toNat!)
    else none
  | _ => none

/-- Modelled from the spec: `Freq::load` (not under `src/`): an
unreadable source fails with `IOError`; otherwise malformed lines are
skipped and the well-formed entries form the table. -/
def Freq.load (source : Option (List (List Char))) : Except IOErr Freq :=
  match source with
  | none => Except.error IOErr.IOError
  | some lines => Except.ok ⟨lines.filterMap parseLine⟩

/-- The startup expression of `src/main.rs`:
`Freq::load().unwrap_or_default()`. -/
def startupFreq (source : Option (List (List Char))) : Freq :=
  match Freq.load source with
  | Except.ok f => f
  | Except.error _ => Freq.default

/-- Walk the weighted table with a residual index, returning the first
word whose cumulative weight exceeds it. -/
def pickWeighted : List (Word × Nat) → Nat → Word → Word
  | [], _, dflt => dflt
  | (w, wt) :: rest, k, dflt => if k < wt then w else pickWeighted rest (k - wt) dflt

/-- Modelled from the spec: `Freq::random_word` (not under `src/`):
weighted random draw (the random seed made explicit); when the table
carries no positive weight the word is drawn from the built-in fallback
vocabulary instead, so a word is always produced. -/
def Freq.random_word (f : Freq) (seed : Nat) : Word :=
  let total := (f.table.map (fun e => e.2)).foldl (· + ·) 0
  if total = 0 then fallbackVocab.getD (seed % fallbackVocab.length) []
  else pickWeighted f.table (seed % total) (fallbackVocab.getD 0 [])

/-- The keyboard modifier flags; only `is_command_pressed()` is consulted
by the training screen, so the modifier set is abstracted to that flag. -/
structure Modifiers where
  command : Bool
deriving DecidableEq, Repr

/-- Source accessor `modifiers.is_command_pressed()`. -/
def Modifiers.is_command_pressed (m : Modifiers) : Bool := m.command

/-- The key codes `State::handle_keyboard` distinguishes; every other
`KeyCode` falls into the wildcard arm. -/
inductive KeyCode
  | space
  | escape
  | backspace
  | other
deriving DecidableEq, Repr

/-- The `iced::keyboard::Event` variants reaching `handle_keyboard`. -/
inductive KeyboardEvent
  | modifiersChanged (m : Modifiers)
  | keyPressed (k : KeyCode)
  | characterReceived (c : Char)
deriving DecidableEq, Repr

/-- The training screen `State` of `src/screen/training.rs` (the
presentation-only `settings_button` is omitted). -/
structure TrainingState where
  modifiers : Modifiers
  accuracy_metric : TriplePoint
deriving DecidableEq, Repr

/-- `State::new` of `src/screen/training.rs`:
`TriplePoint::new(0.5, MIN_CLEAN_PCT, 0.975).unwrap_or_default()`; the
constant `MIN_CLEAN_PCT` lives in the absent `crate::data::training`
module, so it is left as a parameter. -/
def TrainingState.new (minCleanPct : ℚ) : TrainingState :=
  { modifiers := ⟨false⟩,
    accuracy_metric := unwrapOrDefaultTriple (TriplePoint.new (1/2) minCleanPct (39/40)) }

/-- The engine calls `handle_keyboard` makes on the profile list, in
order, used to state its control-flow contract. -/
inductive Call
  | applyChar
  | addLine
  | updateWords
  | fillNextLines
  | backspaceCall
deriving DecidableEq, Repr

/-- The shared body of the `Space` and `CharacterReceived` arms of
`State::handle_keyboard` (src/screen/training.rs lines 218-226 and
237-242): `apply_char`, then on a completed line `add_line`, then on a
word request `update_words`, then `fill_next_lines`.  The returned list
records the calls made. -/
def keystrokeBody (maxErrors budget minDepth threshold : Nat)
    (ps : ProfileList) (c : Char) : ProfileList × List Call :=
  let r := (ps.session).apply_char maxErrors c
  let ps1 := ps.set_session r.1
  match r.2 with
  | none => (ps1, [Call.applyChar])
  | some line =>
    let a := ps1.active.add_line threshold line
    let ps2 : ProfileList := { ps1 with active := a.1 }
    match a.2 with
    | some words =>
      let ps3 := ps2.set_session (ps2.session.update_words words)
      (ps3.set_session (ps3.session.fill_next_lines budget minDepth),
       [Call.applyChar, Call.addLine, Call.updateWords, Call.fillNextLines])
    | none =>
      (ps2.set_session (ps2.session.fill_next_lines budget minDepth),
       [Call.applyChar, Call.addLine, Call.fillNextLines])

/-- `State::handle_keyboard` of `src/screen/training.rs` (lines 206-247).
Every arm of the source returns `None` as its `Option<(Command, Event)>`
value, so only the state transformation is modelled; the returned list
records the engine calls made.  The engine constants live in the absent
`crate::data::training` module and are passed as parameters. -/
def handle_keyboard (maxErrors budget minDepth threshold : Nat)
    (st : TrainingState) (ps : ProfileList) (ev : KeyboardEvent) :
    TrainingState × ProfileList × List Call :=
  match ev with
  | KeyboardEvent.modifiersChanged m => ({ st with modifiers := m }, ps, [])
  | KeyboardEvent.keyPressed k =>
    match k with
    | KeyCode.space =>
      let r := keystrokeBody maxErrors budget minDepth threshold ps ' '
      (st, r.1, r.2)
    | KeyCode.escape => (st, ps, [])
    | KeyCode.backspace =>
      (st, ps.set_session ps.session.backspace, [Call.backspaceCall])
    | KeyCode.other => (st, ps, [])
  | KeyboardEvent.characterReceived c =>
    if c.isAlphanum ∧ ¬ st.modifiers.is_command_pressed then
      let r := keystrokeBody maxErrors budget minDepth threshold ps c
      (st, r.1, r.2)
    else (st, ps, [])

/-- State reached after feeding a whole character sequence through
`apply_char`, keeping only the Session component. -/
def applyCharFold (maxErrors : Nat) (s : Session) (cs : List Char) : Session :=
  cs.foldl (fun st c => (st.apply_char maxErrors c).1) s

/-- The character `handle_keyboard` feeds to `apply_char` for a given
event, if any: a space for the `Space` key, the received character when
it is alphanumeric and no command modifier is pressed. -/
def eventChar (st : TrainingState) : KeyboardEvent → Option Char
  | KeyboardEvent.keyPressed KeyCode.space => some ' '
  | KeyboardEvent.characterReceived c =>
    if c.isAlphanum ∧ ¬ st.modifiers.is_command_pressed then some c else none
  | _ => none

/-- The completed line, if any, that the keystroke's `apply_char` call
returns. -/
def keystrokeCompletion (maxErrors : Nat) (ps : ProfileList) :
    Option Char → Option CompletedLine
  | none => none
  | some c => ((ps.session).apply_char maxErrors c).2

/-- The word request, if any, that the keystroke's `add_line` call
returns (none when no line completed). -/
def keystrokeWordRequest (maxErrors threshold : Nat) (ps : ProfileList)
    (oc : Option Char) : Option (List Word) :=
  match oc with
  | none => none
  | some c =>
    match ((ps.session).apply_char maxErrors c).2 with
    | none => none
    | some line =>
      ((ps.set_session ((ps.session).apply_char maxErrors c).1).active.add_line
        threshold line).2

/-- A concrete Session used to instantiate the theorems below. -/
def sampleSession : Session := ⟨[], [], ['c', 'a'], [['d', 'o', 'g']], []⟩

/-- A concrete Profile used to instantiate the theorems below. -/
def sampleProfile : Profile := ⟨['u'], ['q', 'w', 'e'], ⟨[]⟩, sampleSession⟩

/-- A concrete ProfileList used to instantiate the theorems below. -/
def sampleProfiles : ProfileList := ⟨sampleProfile, []⟩

/-- Claim C1: with a non-empty target queue and `c` equal to the active
target (line characters are alphanumeric or space by the Line data
model), `apply_char` commits exactly one Hit whose dirty flag holds iff
the error buffer was non-empty, clears the error buffer, advances the
target queue, and returns the completed line exactly when the advance
empties the queue. -/
theorem C1_apply_char_hit (maxErrors : Nat) (s : Session) (c : Char)
    (rest : List Char) (ht : s.targets = c :: rest)
    (hin : isInputChar c = true) :
    s.apply_char maxErrors c =
      ({ s with hits := s.hits ++ [⟨c, !s.errors.isEmpty⟩],
                errors := [], targets := rest },
       if rest.isEmpty then
         some ⟨s.hits ++ [⟨c, !s.errors.isEmpty⟩]⟩
       else none) := by
  unfold Session.apply_char
  rw [ht, hin]
  simp only [Bool.true_eq_false, if_false, if_pos rfl]
  cases rest <;> simp

/-- Concrete instantiation of `C1_apply_char_hit`: a hit on target `c`
with pending mistake `x` commits a dirty hit and clears the buffer. -/
theorem C1_witness :
    Session.apply_char 3 ⟨[], ['x'], ['c', 'a'], [], []⟩ 'c' =
      (⟨[⟨'c', true⟩], [], ['a'], [], []⟩, none) := by
  have h := C1_apply_char_hit 3 ⟨[], ['x'], ['c', 'a'], [], []⟩ 'c' ['a']
    rfl (by decide)
  simpa using h

/-- One `apply_char` step keeps the error buffer within its bound. -/
theorem errors_length_step (maxErrors : Nat) (s : Session) (c : Char)
    (h : s.errors.length ≤ maxErrors - 1) :
    ((s.apply_char maxErrors c).1).errors.length ≤ maxErrors - 1 := by
  unfold Session.apply_char
  split
  · exact h
  · split
    · exact h
    · split
      · split <;> simp
      · split
        · simpa using Nat.lt_iff_add_one_le.mp (by simpa using (by assumption))
        · exact h

/-- Claim C2: starting from any Session whose error buffer is within its
bound, every sequence of `apply_char` calls keeps the buffer at no more
than `maxErrors - 1` characters; a non-matching alphanumeric-or-space
character is appended only below the bound and otherwise dropped with no
state change and no target advance. -/
theorem C2_error_buffer_bound (maxErrors : Nat) (s : Session)
    (hinv : s.errors.length ≤ maxErrors - 1) :
    (∀ cs : List Char,
       (applyCharFold maxErrors s cs).errors.length ≤ maxErrors - 1) ∧
    (∀ c t rest, s.targets = t :: rest → isInputChar c = true → c ≠ t →
       s.apply_char maxErrors c =
         if s.errors.length < maxErrors - 1 then
           ({ s with errors := s.errors ++ [c] }, none)
         else (s, none)) := by
  constructor
  · intro cs
    induction cs generalizing s with
    | nil => exact hinv
    | cons c cs ih =>
      have hstep := errors_length_step maxErrors s c hinv
      simpa [applyCharFold] using ih _ hstep
  · intro c t rest ht hc hne
    unfold Session.apply_char
    rw [ht, hc]
    simp only [Bool.true_eq_false, if_false, if_neg hne]

/-- Concrete instantiation of `C2_error_buffer_bound`: with the buffer at
its bound (`maxErrors = 3`, two pending mistakes), a further mistake is
dropped without any state change. -/
theorem C2_witness :
    Session.apply_char 3 ⟨[], ['x', 'y'], ['c'], [], []⟩ 'z' =
      (⟨[], ['x', 'y'], ['c'], [], []⟩, none) := by
  have h := (C2_error_buffer_bound 3 ⟨[], ['x', 'y'], ['c'], [], []⟩
    (by decide)).2 'z' 'c' [] rfl (by decide) (by decide)
  simpa using h

/-- Claim C3: a character that is neither alphanumeric nor a space is
ignored entirely: `apply_char` leaves the Session untouched and reports
no error, and the keyboard handler leaves the screen state and the whole
profile list (hits, error buffer, targets, next lines, statistics)
unchanged; `apply_char`, `backspace` and `fill_next_lines` are total
Lean functions, so no input makes them fail. -/
theorem C3_non_input_ignored (maxErrors budget minDepth threshold : Nat)
    (st : TrainingState) (ps : ProfileList) (s : Session) (c : Char)
    (h : isInputChar c = false) :
    s.apply_char maxErrors c = (s, none) ∧
    handle_keyboard maxErrors budget minDepth threshold st ps
        (KeyboardEvent.characterReceived c) = (st, ps, []) := by
  have halpha : c.isAlphanum = false := by
    have := h
    unfold isInputChar at this
    rcases Bool.or_eq_false_iff.mp this with ⟨h1, _⟩
    exact h1
  constructor
  · unfold Session.apply_char
    rw [h]
    simp
  · simp [handle_keyboard, halpha]

/-- Concrete instantiation of `C3_non_input_ignored` at the punctuation
character `%`. -/
theorem C3_witness :
    Session.apply_char 3 sampleSession '%' = (sampleSession, none) ∧
    handle_keyboard 3 30 2 2 ⟨⟨false⟩, TriplePoint.default⟩ sampleProfiles
        (KeyboardEvent.characterReceived '%') =
      (⟨⟨false⟩, TriplePoint.default⟩, sampleProfiles, []) :=
  C3_non_input_ignored 3 30 2 2 ⟨⟨false⟩, TriplePoint.default⟩
    sampleProfiles sampleSession '%' (by decide)

/-- Claim C4: `backspace` pops exactly the most recently appended error
when the buffer is non-empty, is the identity when the buffer is empty,
and never changes the committed hits or the target queue. -/
theorem C4_backspace (s : Session) :
    (∀ es e, s.errors = es ++ [e] → s.backspace = { s with errors := es }) ∧
    (s.errors = [] → s.backspace = s) ∧
    s.backspace.hits = s.hits ∧ s.backspace.targets = s.targets := by
  refine ⟨?_, ?_, rfl, rfl⟩
  · intro es e he
    unfold Session.backspace
    rw [he, List.dropLast_concat]
  · intro he
    unfold Session.backspace
    rw [show s.errors.dropLast = s.errors from by rw [he]; rfl]

/-- Concrete instantiation of `C4_backspace`: popping the latest mistake
`y`, and idempotence on an empty buffer. -/
theorem C4_witness :
    Session.backspace ⟨[], ['x', 'y'], ['c'], [], []⟩ =
        ⟨[], ['x'], ['c'], [], []⟩ ∧
    Session.backspace sampleSession = sampleSession := by
  constructor
  · have h := (C4_backspace ⟨[], ['x', 'y'], ['c'], [], []⟩).1 ['x'] 'y' rfl
    simpa using h
  · exact (C4_backspace sampleSession).2.1 rfl

/-- The call log of the shared keystroke body, characterized by the
outcomes of `apply_char` and `add_line`. -/
theorem keystrokeBody_log (me bud dep thr : Nat) (ps : ProfileList)
    (c : Char) :
    (keystrokeBody me bud dep thr ps c).2 =
      match ((ps.session).apply_char me c).2 with
      | none => [Call.applyChar]
      | some line =>
        match ((ps.set_session ((ps.session).apply_char me c).1).active.add_line
            thr line).2 with
        | some _ =>
          [Call.applyChar, Call.addLine, Call.updateWords, Call.fillNextLines]
        | none => [Call.applyChar, Call.addLine, Call.fillNextLines] := by
  unfold keystrokeBody
  cases h1 : ((ps.session).apply_char me c).2 with
  | none => simp [h1]
  | some line =>
    simp only [h1]
    cases h2 : ((ps.set_session ((ps.session).apply_char me c).1).active.add_line
        thr line).2 with
    | none => simp [h2]
    | some words => simp [h2]

/-- Claim C5: per keystroke, `add_line` is called exactly when
`apply_char` returns a completed line, `update_words` exactly when that
`add_line` call returns a word request, and `fill_next_lines` (last in
the call order) exactly after a completed line; none of them is called
when `apply_char` returns nothing or is not reached. -/
theorem C5_call_structure (me bud dep thr : Nat) (st : TrainingState)
    (ps : ProfileList) (ev : KeyboardEvent) :
    (Call.addLine ∈ (handle_keyboard me bud dep thr st ps ev).2.2 ↔
       (keystrokeCompletion me ps (eventChar st ev)).isSome = true) ∧
    (Call.fillNextLines ∈ (handle_keyboard me bud dep thr st ps ev).2.2 ↔
       (keystrokeCompletion me ps (eventChar st ev)).isSome = true) ∧
    (Call.updateWords ∈ (handle_keyboard me bud dep thr st ps ev).2.2 ↔
       (keystrokeWordRequest me thr ps (eventChar st ev)).isSome = true) ∧
    ((keystrokeCompletion me ps (eventChar st ev)).isSome = true →
       (handle_keyboard me bud dep thr st ps ev).2.2.getLast? =
         some Call.fillNextLines) := by
  have hbody : ∀ c : Char,
      (Call.addLine ∈ (keystrokeBody me bud dep thr ps c).2 ↔
         (((ps.session).apply_char me c).2).isSome = true) ∧
      (Call.fillNextLines ∈ (keystrokeBody me bud dep thr ps c).2 ↔
         (((ps.session).apply_char me c).2).isSome = true) ∧
      (Call.updateWords ∈ (keystrokeBody me bud dep thr ps c).2 ↔
         (keystrokeWordRequest me thr ps (some c)).isSome = true) ∧
      ((((ps.session).apply_char me c).2).isSome = true →
         (keystrokeBody me bud dep thr ps c).2.getLast? =
           some Call.fillNextLines) := by
    intro c
    rw [keystrokeBody_log]
    unfold keystrokeWordRequest
    cases h1 : ((ps.session).apply_char me c).2 with
    | none => simp [h1]
    | some line =>
      cases h2 : ((ps.set_session ((ps.session).apply_char me c).1).active.add_line
          thr line).2 with
      | none => simp [h1, h2]
      | some words => simp [h1, h2]
  cases ev with
  | modifiersChanged m =>
    simp [handle_keyboard, eventChar, keystrokeCompletion, keystrokeWordRequest]
  | keyPressed k =>
    cases k with
    | space => simpa [handle_keyboard, eventChar, keystrokeCompletion] using hbody ' '
    | escape =>
      simp [handle_keyboard, eventChar, keystrokeCompletion, keystrokeWordRequest]
    | backspace =>
      simp [handle_keyboard, eventChar, keystrokeCompletion, keystrokeWordRequest]
    | other =>
      simp [handle_keyboard, eventChar, keystrokeCompletion, keystrokeWordRequest]
  | characterReceived c =>
    by_cases ha : c.isAlphanum = true
    · by_cases hc : st.modifiers.is_command_pressed = true
      · simp [handle_keyboard, eventChar, keystrokeCompletion,
          keystrokeWordRequest, ha, hc]
      · have hc' : st.modifiers.is_command_pressed = false := by simpa using hc
        simpa [handle_keyboard, eventChar, keystrokeCompletion, ha, hc']
          using hbody c
    · have ha' : c.isAlphanum = false := by simpa using ha
      simp [handle_keyboard, eventChar, keystrokeCompletion,
        keystrokeWordRequest, ha']

/-- Concrete instantiation of `C5_call_structure`: a matching keystroke
that does not finish the line triggers none of the downstream calls. -/
theorem C5_witness :
    Call.addLine ∉ (handle_keyboard 3 30 2 2 ⟨⟨false⟩, TriplePoint.default⟩
        sampleProfiles (KeyboardEvent.characterReceived 'c')).2.2 := by
  have h := (C5_call_structure 3 30 2 2 ⟨⟨false⟩, TriplePoint.default⟩
    sampleProfiles (KeyboardEvent.characterReceived 'c')).1
  rw [h]
  decide

/-- Branch equation: at or below the low breakpoint the metric is 0. -/
theorem value_eq_zero (t : TriplePoint) (x : ℚ) (h : x ≤ t.lo) :
    t.value x = 0 := by
  unfold TriplePoint.value
  rw [if_pos h]

/-- Branch equation: on the first segment the metric interpolates onto
`[0, 1/2]`. -/
theorem value_eq_seg1 (t : TriplePoint) (x : ℚ) (h1 : ¬ x ≤ t.lo)
    (h2 : x ≤ t.mid) : t.value x = (x - t.lo) / (t.mid - t.lo) / 2 := by
  unfold TriplePoint.value
  rw [if_neg h1, if_pos h2]

/-- Branch equation: on the second segment the metric interpolates onto
`[1/2, 1]`. -/
theorem value_eq_seg2 (t : TriplePoint) (x : ℚ) (h1 : ¬ x ≤ t.lo)
    (h2 : ¬ x ≤ t.mid) (h3 : x ≤ t.hi) :
    t.value x = 1/2 + (x - t.mid) / (t.hi - t.mid) / 2 := by
  unfold TriplePoint.value
  rw [if_neg h1, if_neg h2, if_pos h3]

/-- Branch equation: above the high breakpoint the metric is 1. -/
theorem value_eq_one (t : TriplePoint) (x : ℚ) (h1 : ¬ x ≤ t.lo)
    (h2 : ¬ x ≤ t.mid) (h3 : ¬ x ≤ t.hi) : t.value x = 1 := by
  unfold TriplePoint.value
  rw [if_neg h1, if_neg h2, if_neg h3]

/-- The metric always lands in `[0, 1]`, for any breakpoints. -/
theorem value_bounds (t : TriplePoint) (x : ℚ) :
    0 ≤ t.value x ∧ t.value x ≤ 1 := by
  unfold TriplePoint.value
  split_ifs with h1 h2 h3
  · exact ⟨le_refl 0, by norm_num⟩
  · push_neg at h1
    have hd : (0 : ℚ) < t.mid - t.lo := by linarith
    have hnum : (0 : ℚ) ≤ x - t.lo := by linarith
    have hq0 : (0 : ℚ) ≤ (x - t.lo) / (t.mid - t.lo) :=
      div_nonneg hnum (le_of_lt hd)
    have hq1 : (x - t.lo) / (t.mid - t.lo) ≤ 1 :=
      (div_le_one hd).mpr (by linarith)
    constructor <;> linarith
  · push_neg at h1 h2
    have hd : (0 : ℚ) < t.hi - t.mid := by linarith
    have hnum : (0 : ℚ) ≤ x - t.mid := by linarith
    have hq0 : (0 : ℚ) ≤ (x - t.mid) / (t.hi - t.mid) :=
      div_nonneg hnum (le_of_lt hd)
    have hq1 : (x - t.mid) / (t.hi - t.mid) ≤ 1 :=
      (div_le_one hd).mpr (by linarith)
    constructor <;> linarith
  · exact ⟨by norm_num, le_refl 1⟩

/-- The metric is monotonically non-decreasing, for any breakpoints. -/
theorem value_mono (t : TriplePoint) (x y : ℚ) (hxy : x ≤ y) :
    t.value x ≤ t.value y := by
  by_cases hx1 : x ≤ t.lo
  · rw [value_eq_zero t x hx1]
    exact (value_bounds t y).1
  · have hy1 : ¬ y ≤ t.lo := fun h => hx1 (le_trans hxy h)
    by_cases hx2 : x ≤ t.mid
    · push_neg at hx1
      have hd : (0 : ℚ) < t.mid - t.lo := by linarith
      rw [value_eq_seg1 t x hx1.not_le hx2]
      by_cases hy2 : y ≤ t.mid
      · rw [value_eq_seg1 t y hy1 hy2]
        have h := div_le_div_of_nonneg_right (c := t.mid - t.lo)
          (show x - t.lo ≤ y - t.lo by linarith) (le_of_lt hd)
        linarith
      · have hxhalf : (x - t.lo) / (t.mid - t.lo) / 2 ≤ 1/2 := by
          have hq1 : (x - t.lo) / (t.mid - t.lo) ≤ 1 :=
            (div_le_one hd).mpr (by linarith)
          linarith
        by_cases hy3 : y ≤ t.hi
        · rw [value_eq_seg2 t y hy1 hy2 hy3]
          push_neg at hy2
          have hd2 : (0 : ℚ) < t.hi - t.mid := by linarith
          have hq0 : (0 : ℚ) ≤ (y - t.mid) / (t.hi - t.mid) :=
            div_nonneg (by linarith) (le_of_lt hd2)
          linarith
        · rw [value_eq_one t y hy1 hy2 hy3]
          linarith
    · have hy2 : ¬ y ≤ t.mid := fun h => hx2 (le_trans hxy h)
      by_cases hx3 : x ≤ t.hi
      · push_neg at hx2
        have hd2 : (0 : ℚ) < t.hi - t.mid := by linarith
        rw [value_eq_seg2 t x hx1 hx2.not_le hx3]
        by_cases hy3 : y ≤ t.hi
        · rw [value_eq_seg2 t y hy1 hy2 hy3]
          have h := div_le_div_of_nonneg_right (c := t.hi - t.mid)
            (show x - t.mid ≤ y - t.mid by linarith) (le_of_lt hd2)
          linarith
        · rw [value_eq_one t y hy1 hy2 hy3]
          have hq1 : (x - t.mid) / (t.hi - t.mid) ≤ 1 :=
            (div_le_one hd2).mpr (by linarith)
          linarith
      · have hy3 : ¬ y ≤ t.hi := fun h => hx3 (le_trans hxy h)
        rw [value_eq_one t x hx1 hx2 hx3, value_eq_one t y hy1 hy2 hy3]

/-- Claim C6 (amended): for a successfully constructed
`TriplePoint(lo, mid, hi)` with strictly increasing breakpoints
`lo < mid < hi`, the metric maps `lo` to 0, `mid` to 1/2 and `hi` to 1;
for any breakpoints it stays in `[0, 1]` and is monotonically
non-decreasing over `[0, 1]`.  (With `lo = mid` or `mid = hi` — which
the constructor accepts — the anchor equations fail; see the
counterexample.) -/
theorem C6_value_amended (lo mid hi : ℚ) (tp : TriplePoint)
    (hnew : TriplePoint.new lo mid hi = Except.ok tp) :
    (lo < mid → mid < hi →
       tp.value tp.lo = 0 ∧ tp.value tp.mid = 1/2 ∧ tp.value tp.hi = 1) ∧
    (∀ x : ℚ, 0 ≤ tp.value x ∧ tp.value x ≤ 1) ∧
    (∀ x y : ℚ, 0 ≤ x → y ≤ 1 → x ≤ y → tp.value x ≤ tp.value y) := by
  unfold TriplePoint.new at hnew
  split_ifs at hnew with hcond
  have htp : tp = ⟨lo, mid, hi⟩ := (Except.ok.inj hnew).symm
  subst htp
  refine ⟨fun hlm hmh => ⟨?_, ?_, ?_⟩, fun x => value_bounds _ x,
    fun x y _ _ hxy => value_mono _ x y hxy⟩
  · exact value_eq_zero _ lo (le_refl lo)
  · rw [value_eq_seg1 ⟨lo, mid, hi⟩ mid (by simpa using hlm) (le_refl mid)]
    rw [div_self (show mid - lo ≠ 0 by intro h; apply absurd hlm; simp
      [show lo = mid by linarith])]
  · rw [value_eq_seg2 ⟨lo, mid, hi⟩ hi (by simp; linarith)
      (by simpa using hmh) (le_refl hi)]
    rw [div_self (show hi - mid ≠ 0 by intro h; apply absurd hmh; simp
      [show mid = hi by linarith])]
    norm_num

/-- Concrete instantiation of `C6_value_amended`: the mid anchor at the
strict triple `(1/4, 1/2, 3/4)`, and the `[0, 1]` bounds at the
degenerate constructed triple `(0, 0, 1)`. -/
theorem C6_witness :
    TriplePoint.value ⟨1/4, 1/2, 3/4⟩ (1/2 : ℚ) = 1/2 ∧
    0 ≤ TriplePoint.value ⟨0, 0, 1⟩ (1/2 : ℚ) ∧
    TriplePoint.value ⟨0, 0, 1⟩ (1/2 : ℚ) ≤ 1 := by
  have h1 := C6_value_amended (1/4) (1/2) (3/4) ⟨1/4, 1/2, 3/4⟩
    (by norm_num [TriplePoint.new])
  have h2 := C6_value_amended 0 0 1 ⟨0, 0, 1⟩
    (by norm_num [TriplePoint.new])
  exact ⟨(h1.1 (by norm_num) (by norm_num)).2.1,
    (h2.2.1 (1/2)).1, (h2.2.1 (1/2)).2⟩

/-- Claim C6 fails as stated: the constructor accepts degenerate
breakpoints.  `TriplePoint(0, 0, 1)` is successfully constructed yet
`value(mid) = value(0) = 0 ≠ 1/2`, and `TriplePoint(0, 1, 1)` is
successfully constructed yet `value(hi) = value(1) = 1/2 ≠ 1`. -/
theorem C6_counterexample :
    (TriplePoint.new 0 0 1 = Except.ok ⟨0, 0, 1⟩ ∧
       TriplePoint.value ⟨0, 0, 1⟩ 0 = 0 ∧ (0 : ℚ) ≠ 1/2) ∧
    (TriplePoint.new 0 1 1 = Except.ok ⟨0, 1, 1⟩ ∧
       TriplePoint.value ⟨0, 1, 1⟩ 1 = 1/2 ∧ (1/2 : ℚ) ≠ 1) := by
  refine ⟨⟨?_, ?_, by norm_num⟩, ⟨?_, ?_, by norm_num⟩⟩
  · norm_num [TriplePoint.new]
  · norm_num [TriplePoint.value]
  · norm_num [TriplePoint.new]
  · norm_num [TriplePoint.value]

/-- Claim C7: `TriplePoint::new(lo, mid, hi)` succeeds (returning exactly
those breakpoints) iff `0 ≤ lo ≤ mid ≤ hi ≤ 1` and fails with
`InvalidRange` otherwise — in particular for the descending triple
`(0.9, 0.5, 0.2)` — and the caller's `unwrap_or_default` substitution
always leaves the training screen with a valid metric. -/
theorem C7_new_validation (lo mid hi : ℚ) :
    (0 ≤ lo ∧ lo ≤ mid ∧ mid ≤ hi ∧ hi ≤ 1 →
       TriplePoint.new lo mid hi = Except.ok ⟨lo, mid, hi⟩) ∧
    (¬ (0 ≤ lo ∧ lo ≤ mid ∧ mid ≤ hi ∧ hi ≤ 1) →
       TriplePoint.new lo mid hi =
         Except.error TriplePointError.InvalidRange) ∧
    TriplePoint.new (9/10) (1/2) (1/5) =
      Except.error TriplePointError.InvalidRange ∧
    (unwrapOrDefaultTriple (TriplePoint.new lo mid hi)).valid := by
  refine ⟨fun h => ?_, fun h => ?_, ?_, ?_⟩
  · unfold TriplePoint.new
    rw [if_pos h]
  · unfold TriplePoint.new
    rw [if_neg h]
  · norm_num [TriplePoint.new]
  · unfold unwrapOrDefaultTriple TriplePoint.new
    split_ifs with h
    · exact h
    · exact ⟨by norm_num [TriplePoint.default], by norm_num [TriplePoint.default],
        by norm_num [TriplePoint.default], by norm_num [TriplePoint.default]⟩

/-- Concrete instantiation of `C7_new_validation`: a valid ascending
triple is accepted and the descending triple is rejected. -/
theorem C7_witness :
    TriplePoint.new 0 (1/2) 1 = Except.ok ⟨0, 1/2, 1⟩ ∧
    TriplePoint.new (9/10) (1/2) (1/5) =
      Except.error TriplePointError.InvalidRange :=
  ⟨(C7_new_validation 0 (1/2) 1).1 (by norm_num),
   (C7_new_validation (9/10) (1/2) (1/5)).2.2.1⟩

/-- Claim C8: a character whose statistic holds `m` clean and `n` dirty
hits is reported by `clean_letters` with ratio `m / (m + n)` when
`m + n > 0` and with the neutral default 1 when both are zero; the ratio
always lies in `[0, 1]`. -/
theorem C8_clean_ratio (t : Tracker) (c : Char) (m n : Nat)
    (h : (c, LetterStat.mk m n) ∈ t.stats) :
    (c, LetterStat.ratio ⟨m, n⟩) ∈ t.clean_letters ∧
    LetterStat.ratio ⟨m, n⟩ =
      (if m + n = 0 then 1 else (m : ℚ) / ((m : ℚ) + (n : ℚ))) ∧
    0 ≤ LetterStat.ratio ⟨m, n⟩ ∧ LetterStat.ratio ⟨m, n⟩ ≤ 1 := by
  refine ⟨?_, rfl, ?_, ?_⟩
  · unfold Tracker.clean_letters
    exact List.mem_map_of_mem (fun p => (p.1, p.2.ratio)) h
  · unfold LetterStat.ratio
    split_ifs
    · norm_num
    · exact div_nonneg (by positivity) (by positivity)
  · unfold LetterStat.ratio
    split_ifs with h0
    · exact le_refl 1
    · have hpos : (0 : ℚ) < (m : ℚ) + (n : ℚ) := by
        have : 0 < m + n := Nat.pos_of_ne_zero h0
        exact_mod_cast this
      exact (div_le_one hpos).mpr (by linarith [Nat.cast_nonneg (α := ℚ) n])

/-- Concrete instantiation of `C8_clean_ratio`: one clean and one dirty
hit on `a` yield the reported ratio 1/2. -/
theorem C8_witness :
    ('a', (1 : ℚ)/2) ∈ Tracker.clean_letters ⟨[('a', ⟨1, 1⟩)]⟩ := by
  have h := (C8_clean_ratio ⟨[('a', ⟨1, 1⟩)]⟩ 'a' 1 1 (by simp)).1
  have hr : LetterStat.ratio ⟨1, 1⟩ = (1 : ℚ)/2 := by
    norm_num [LetterStat.ratio]
  rwa [hr] at h

/-- `pickWeighted` returns either the fallback word or the first
component of a table entry. -/
theorem pickWeighted_cases (l : List (Word × Nat)) (k : Nat) (d : Word) :
    pickWeighted l k d = d ∨ ∃ e ∈ l, pickWeighted l k d = e.1 := by
  induction l generalizing k with
  | nil => exact Or.inl rfl
  | cons e rest ih =>
    unfold pickWeighted
    split_ifs with h
    · exact Or.inr ⟨e, List.mem_cons_self e rest, rfl⟩
    · rcases ih (k - e.2) with h1 | ⟨e', he', heq⟩
      · exact Or.inl h1
      · exact Or.inr ⟨e', List.mem_cons_of_mem e he', heq⟩

/-- A record accepted by the corpus parser carries a non-empty word. -/
theorem parseLine_word_ne_nil (l : List Char) (w : Word) (k : Nat)
    (h : parseLine l = some (w, k)) : w ≠ [] := by
  unfold parseLine at h
  split at h
  · split_ifs at h with hc
    · simp only [Option.some.injEq, Prod.mk.injEq] at h
      obtain ⟨rfl, -⟩ := h
      simpa using hc.2.2.1
  · exact absurd h (by simp)

/-- Every entry of the fallback vocabulary drawn by index is a non-empty
word. -/
theorem fallback_getD_pos (i : Nat) :
    0 < (fallbackVocab.getD (i % fallbackVocab.length) []).length := by
  have hlen : fallbackVocab.length = 4 := rfl
  rw [hlen]
  have h4 : i % 4 < 4 := Nat.mod_lt _ (by norm_num)
  interval_cases h : i % 4 <;> decide

/-- A table whose words are all non-empty makes `random_word` produce a
non-empty word for every seed. -/
theorem random_word_pos (f : Freq) (hf : ∀ e ∈ f.table, e.1 ≠ [])
    (seed : Nat) : 0 < (f.random_word seed).length := by
  have hred : f.random_word seed =
      (if (f.table.map (fun e => e.2)).foldl (fun a b => a + b) 0 = 0 then
         fallbackVocab.getD (seed % fallbackVocab.length) []
       else pickWeighted f.table
         (seed % (f.table.map (fun e => e.2)).foldl (fun a b => a + b) 0)
         (fallbackVocab.getD 0 [])) := rfl
  rw [hred]
  split_ifs with h
  · exact fallback_getD_pos seed
  · rcases pickWeighted_cases f.table
        (seed % (f.table.map (fun e => e.2)).foldl (· + ·) 0)
        (fallbackVocab.getD 0 []) with h1 | ⟨e, he, heq⟩
    · rw [h1]
      decide
    · rw [heq]
      exact List.length_pos.mpr (hf e he)

/-- Claim C9: startup never aborts on a failed corpus load — an
unreadable (missing) source and an empty source both yield the default
`Freq` via `unwrap_or_default`, and whatever the source, the resulting
vocabulary is usable: every random draw produces a non-empty word. -/
theorem C9_startup_fallback (source : Option (List (List Char))) :
    (Freq.load source = Except.error IOErr.IOError →
       startupFreq source = Freq.default) ∧
    (source = none → startupFreq source = Freq.default) ∧
    (source = some [] → startupFreq source = Freq.default) ∧
    (∀ seed, 0 < ((startupFreq source).random_word seed).length) := by
  refine ⟨?_, ?_, ?_, ?_⟩
  · intro h
    unfold startupFreq
    rw [h]
  · intro h
    subst h
    rfl
  · intro h
    subst h
    rfl
  · intro seed
    apply random_word_pos
    intro e he
    cases source with
    | none => simp [startupFreq, Freq.load, Freq.default] at he
    | some lines =>
      simp only [startupFreq, Freq.load] at he
      obtain ⟨l, -, hl⟩ := List.mem_filterMap.mp he
      exact parseLine_word_ne_nil l e.1 e.2 (by simpa using hl)

/-- Concrete instantiation of `C9_startup_fallback`: a missing source
falls back to the default vocabulary and still yields a word. -/
theorem C9_witness :
    startupFreq none = Freq.default ∧
    0 < ((startupFreq none).random_word 0).length :=
  ⟨(C9_startup_fallback none).2.1 rfl, (C9_startup_fallback none).2.2.2 0⟩

/-- Claim C10: a `CharacterReceived` event with a command modifier held
leaves the whole profile list (Session and tracker included) unchanged
even for alphanumeric characters, and a `ModifiersChanged` event only
stores the new modifier flags. -/
theorem C10_command_modifier (me bud dep thr : Nat) (st : TrainingState)
    (ps : ProfileList) (c : Char) (m : Modifiers)
    (h : st.modifiers.is_command_pressed = true) :
    handle_keyboard me bud dep thr st ps (KeyboardEvent.characterReceived c) =
      (st, ps, []) ∧
    handle_keyboard me bud dep thr st ps (KeyboardEvent.modifiersChanged m) =
      ({ st with modifiers := m }, ps, []) := by
  constructor
  · simp [handle_keyboard, h]
  · rfl

/-- Concrete instantiation of `C10_command_modifier`: with command held,
the alphanumeric character `a` does not reach the Session. -/
theorem C10_witness :
    handle_keyboard 3 30 2 2 ⟨⟨true⟩, TriplePoint.default⟩ sampleProfiles
        (KeyboardEvent.characterReceived 'a') =
      (⟨⟨true⟩, TriplePoint.default⟩, sampleProfiles, []) :=
  (C10_command_modifier 3 30 2 2 ⟨⟨true⟩, TriplePoint.default⟩
    sampleProfiles 'a' ⟨false⟩ rfl).1

end Linkage
